import Mathlib

/-!
Verification of the demo-blur repository: a web page that segments people in a
static image and composites a blurred background with a sharp foreground.

The development shallowly embeds the two components:
- `src/app/components/BlurBackground.tsx` (the BodyPix variant): centroid-based
  center-most-person selection, a binary to-blur mask, and a per-pixel merge of
  an original and a blurred RGBA buffer;
- `src/app/components/BlurBackgroundMediapipe.tsx` (the MediaPipe variant):
  a sequence of 2D-canvas compositing operations and the same load/error UI
  state machine.

Pixel buffers are `List Nat` of RGBA bytes; typed-array reads out of bounds
yield a value that never equals 1 (embedded as `List.getD _ _ 0`), and
typed-array writes out of bounds are silently dropped (embedded as `List.set`,
which is the identity out of bounds).  JavaScript numeric work on centroids is
embedded over `ℚ`; the code compares `Math.sqrt` values, and square root is
strictly monotone on nonnegative reals, so the embedding compares squared
distances and the theorems relate them back through `Real.sqrt`.
-/

/-- One element of the `segmentMultiPerson` result (BodyPix
`PersonSegmentation`): a flat 0/1 buffer `data` indexed by `y * width + x`. -/
structure PersonSegmentation where
  data : List Nat
  width : Nat
  height : Nat
deriving DecidableEq, Repr

/-- The accumulation of the centroid loop of `processImage` (lines 98-113):
fold over `y < height`, `x < width`, and when `data[y*width+x] = 1` add `x`
to `sumX`, `y` to `sumY`, and 1 to `count`.  Returns `(sumX, sumY, count)`. -/
def segStats (seg : PersonSegmentation) : Nat × Nat × Nat :=
  (List.range seg.height).foldl (fun acc y =>
    (List.range seg.width).foldl (fun acc2 x =>
      if seg.data.getD (y * seg.width + x) 0 = 1 then
        (acc2.1 + x, acc2.2.1 + y, acc2.2.2 + 1)
      else acc2) acc) (0, 0, 0)

/-- The `count` of person pixels accumulated by the centroid loop. -/
def countPixels (seg : PersonSegmentation) : Nat :=
  (segStats seg).2.2

/-- Squared Euclidean distance of the segmentation centroid
`(sumX/count, sumY/count)` to the center `(cX, cY)`.  The code takes
`Math.sqrt` of this quantity (line 118); since square root is strictly
monotone, `dist < minDist` in the code holds exactly when the squared
distances compare the same way. -/
def distSq (cX cY : ℚ) (seg : PersonSegmentation) : ℚ :=
  let s := segStats seg
  let dx := ((s.1 : ℚ) / ((s.2.2 : ℚ))) - cX
  let dy := ((s.2.1 : ℚ) / ((s.2.2 : ℚ))) - cY
  dx * dx + dy * dy

/-- One iteration of the selection loop (lines 96-125): segmentations with
`count = 0` are skipped (`continue`); otherwise the candidate replaces the
current best exactly when its distance is strictly smaller (an empty best,
`minDist = Infinity`, is always replaced).  `minDist` in the code is always
the distance of `closestSeg`, so the accumulator stores only the
segmentation. -/
def selectStep (cX cY : ℚ) (acc : Option PersonSegmentation)
    (seg : PersonSegmentation) : Option PersonSegmentation :=
  if countPixels seg = 0 then acc
  else
    match acc with
    | none => some seg
    | some best => if distSq cX cY seg < distSq cX cY best then some seg else acc

/-- The whole selection loop: fold `selectStep` over the segmentations with
initial best `none` (`closestSeg = null`, `minDist = Infinity`). -/
def selectClosest (cX cY : ℚ) (segs : List PersonSegmentation) :
    Option PersonSegmentation :=
  segs.foldl (selectStep cX cY) none

/-- The hidden source image element: its intrinsic size and its RGBA bytes
(what `getImageData` reads back after `drawImage(img, 0, 0)`). -/
structure ImageElem where
  width : Nat
  height : Nat
  data : List Nat
deriving DecidableEq, Repr

/-- The offscreen canvas of step C of `processImage` (lines 131-138): its size
is set to the image size, its filter to "blur(10px)", and the whole image is
drawn through that filter.  The browser blur primitive is the parameter
`blur10`. -/
structure BlurredCanvas where
  width : Nat
  height : Nat
  filter : String
  data : List Nat
deriving DecidableEq, Repr

/-- Lines 131-138 of `processImage`: create the offscreen canvas, size it to
the image, set `filter = "blur(10px)"`, draw the image. -/
def makeBlurredCanvas (img : ImageElem) (blur10 : List Nat → List Nat) :
    BlurredCanvas :=
  { width := img.width
    height := img.height
    filter := "blur(10px)"
    data := blur10 img.data }

/-- `ctx.getImageData(0, 0, w, h)`: the browser returns a buffer of exactly
`4 * (w * h)` RGBA bytes read from the canvas content. -/
def getImageData (w h : Nat) (buf : List Nat) : List Nat :=
  (List.range (4 * (w * h))).map fun j => buf.getD j 0

/-- Lines 155-158: the to-blur mask of one byte per canvas pixel, initialized
to all ones ("everything should be blurred"). -/
def initMask (w h : Nat) : List Nat :=
  List.replicate (w * h) 1

/-- The body of the carve-out loop (lines 169-174): at `i = y * seg.width + x`,
when `data[i] = 1` write 0 ("do not blur") into the mask at that same index.
A typed-array write out of bounds is dropped, which `List.set` reproduces. -/
def carveStep (seg : PersonSegmentation) (y : Nat) (m2 : List Nat) (x : Nat) :
    List Nat :=
  if seg.data.getD (y * seg.width + x) 0 = 1 then
    m2.set (y * seg.width + x) 0
  else m2

/-- The inner loop over `x < seg.width` for one row `y` (lines 168-175). -/
def carveRow (seg : PersonSegmentation) (m : List Nat) (y : Nat) : List Nat :=
  (List.range seg.width).foldl (carveStep seg y) m

/-- Lines 165-176: for the chosen segmentation, walk `y < seg.height`,
`x < seg.width` and write 0 ("do not blur") into the mask at index
`y * seg.width + x` whenever `data` is 1 there.  The index is computed from
the dimensions of the segmentation itself, with no rescaling. -/
def applySeg (mask : List Nat) (seg : PersonSegmentation) : List Nat :=
  (List.range seg.height).foldl (carveRow seg) mask

/-- Lines 154-176 combined: the all-ones mask, with the chosen segmentation
(if any) carved out. -/
def toBlurMask (w h : Nat) (closestSeg : Option PersonSegmentation) :
    List Nat :=
  match closestSeg with
  | none => initMask w h
  | some seg => applySeg (initMask w h) seg

/-- The write of one merge-loop iteration (lines 181-185): copy the four RGBA
bytes at `idx = i * 4` from the blurred buffer into the final buffer. -/
def writePixel (bd fd : List Nat) (i : Nat) : List Nat :=
  ((((fd.set (i * 4) (bd.getD (i * 4) 0)).set
      (i * 4 + 1) (bd.getD (i * 4 + 1) 0)).set
      (i * 4 + 2) (bd.getD (i * 4 + 2) 0)).set
      (i * 4 + 3) (bd.getD (i * 4 + 3) 0))

/-- One iteration of the merge loop (lines 179-187): when the mask byte is 1,
overwrite the pixel with the blurred bytes; otherwise leave the original. -/
def mergeStep (mask bd : List Nat) (fd : List Nat) (i : Nat) : List Nat :=
  if mask.getD i 0 = 1 then writePixel bd fd i else fd

/-- The whole merge loop: fold `mergeStep` over `i < mask.length`. -/
def mergeImages (mask fd bd : List Nat) : List Nat :=
  (List.range mask.length).foldl (mergeStep mask bd) fd

/-- What ends up on the visible canvas: either the unmodified image drawn by
`drawImage` alone (the no-detection early return, lines 83-87), or the merged
buffer written back by `putImageData` (line 188). -/
inductive CanvasContent where
  | drawnImage
  | composited (bytes : List Nat)
deriving DecidableEq, Repr

/-- The visible canvas after the segmentation effect ran. -/
structure Canvas where
  width : Nat
  height : Nat
  content : CanvasContent
deriving DecidableEq, Repr

/-- The merged buffer of the non-empty branch of `processImage`: the original
image drawn on the canvas and read back, the blurred copy read back from the
offscreen canvas, and the to-blur mask for the segmentation chosen by the
selection loop with center `(width/2, height/2)` (lines 89-90). -/
def bodyPixComposite (img : ImageElem) (segs : List PersonSegmentation)
    (blur10 : List Nat → List Nat) : List Nat :=
  mergeImages
    (toBlurMask img.width img.height
      (selectClosest ((img.width : ℚ) / 2) ((img.height : ℚ) / 2) segs))
    (getImageData img.width img.height img.data)
    (getImageData img.width img.height (makeBlurredCanvas img blur10).data)

/-- The BodyPix segmentation effect (lines 47-194): the canvas is sized to the
image (lines 56-57 and 63-64) and then `processImage` runs; with no detected
person the original image is drawn and the function returns (lines 83-87),
otherwise the merged buffer is written. -/
def bodyPixRun (img : ImageElem) (segs : List PersonSegmentation)
    (blur10 : List Nat → List Nat) : Canvas :=
  if segs.length = 0 then
    { width := img.width, height := img.height, content := .drawnImage }
  else
    { width := img.width, height := img.height
      content := .composited (bodyPixComposite img segs blur10) }

/-- What a component renders.  `errorText`, `loadingText` and `imageAndCanvas`
come from the code (lines 196-222 of the BodyPix variant, lines 137-157 of the
MediaPipe variant).  `cssBlurFallback` is Modelled from the spec: the spec
describes a "CSS-blurred background-image fallback" UI state, with no
counterpart anywhere in the code; the constructor exists so that statements
about that state can be expressed. -/
inductive View where
  | errorText (msg : String)
  | loadingText (msg : String)
  | imageAndCanvas
  | cssBlurFallback
deriving DecidableEq, Repr

/-- The render function of the BodyPix component (lines 196-222): an error
renders as a plain-text message, otherwise a loading line, otherwise the
hidden image plus the canvas. -/
def renderBodyPix (error : Option String) (isLoading : Bool) : View :=
  match error with
  | some e => .errorText e
  | none => if isLoading then .loadingText "Loading model..." else .imageAndCanvas

/-- The render function of the MediaPipe component (lines 137-157), same
shape. -/
def renderMediapipe (error : Option String) (isLoading : Bool) : View :=
  match error with
  | some e => .errorText e
  | none =>
    if isLoading then .loadingText "Loading MediaPipe model..." else .imageAndCanvas

/-- Every failure point of the two components: each is a `catch` block or an
`onerror` handler that calls `setError` with a fixed string. -/
inductive FailureEvent where
  | bpModelLoad
  | bpImageLoad
  | bpProcessing
  | mpScriptMissing
  | mpModelLoad
  | mpImageLoad
  | mpProcessing
  | mpCompositing
deriving DecidableEq, Repr

/-- The string passed to `setError` at each failure point. -/
def failureMessage : FailureEvent → String
  | .bpModelLoad => "Failed to load the model"
  | .bpImageLoad => "Failed to load image"
  | .bpProcessing => "Failed to process the image"
  | .mpScriptMissing => "MediaPipe SelfieSegmentation script not found on window."
  | .mpModelLoad => "Failed to load MediaPipe SelfieSegmentation model"
  | .mpImageLoad => "Failed to load the image"
  | .mpProcessing => "Failed to process the image"
  | .mpCompositing => "Failed to composite the result"

/-- The view after a failure: the component whose handler fired re-renders
with `error` set to the handler's message. -/
def viewAfterFailure (e : FailureEvent) (isLoading : Bool) : View :=
  match e with
  | .bpModelLoad | .bpImageLoad | .bpProcessing =>
    renderBodyPix (some (failureMessage e)) isLoading
  | _ => renderMediapipe (some (failureMessage e)) isLoading

/-- One canvas operation of the MediaPipe `processImage` (lines 96-121). -/
inductive MpOp where
  | setCanvasSize (w h : Nat)
  | save
  | clearRect (w h : Nat)
  | drawImage (w h : Nat)
  | setGlobalCompositeOperation (mode : String)
  | drawSegmentationMask (w h : Nat)
  | setFilter (f : String)
  | restore
deriving DecidableEq, Repr

/-- The sequence of canvas operations performed by the MediaPipe
`processImage` for an image: the canvas is sized to the image (lines 97-98)
and the `onResults` callback then composites over the full canvas size
(lines 105-121). -/
def mediapipeProcessOps (img : ImageElem) : List MpOp :=
  [ .setCanvasSize img.width img.height
  , .save
  , .clearRect img.width img.height
  , .drawImage img.width img.height
  , .setGlobalCompositeOperation "destination-in"
  , .drawSegmentationMask img.width img.height
  , .setGlobalCompositeOperation "destination-over"
  , .setFilter "blur(10px)"
  , .drawImage img.width img.height
  , .setFilter "none"
  , .restore ]

/-- Canvas-layout coordinates of a flat mask index: the full-resolution mask
has one byte per canvas pixel in row-major order with row length `w`, so
index `i` addresses the canvas pixel `(i % w, i / w)`. -/
def canvasCoord (w i : Nat) : Nat × Nat :=
  (i % w, i / w)

/-- The coordinates `(x, y)` at which the carve-out loop (lines 165-176)
writes a zero: every `x < seg.width`, `y < seg.height` with
`data[y * seg.width + x] = 1`. -/
def segWrites (seg : PersonSegmentation) : List (Nat × Nat) :=
  ((List.range seg.height).flatMap fun y =>
    (List.range seg.width).map fun x => (x, y)).filter fun p =>
      seg.data.getD (p.2 * seg.width + p.1) 0 = 1

lemma foldl_selectStep_none (cX cY : ℚ) :
    ∀ segs : List PersonSegmentation, (∀ s ∈ segs, countPixels s = 0) →
      segs.foldl (selectStep cX cY) none = none := by
  intro segs
  induction segs with
  | nil => intro _; rfl
  | cons s t ih =>
    intro h
    have hs : countPixels s = 0 := h s (List.mem_cons_self s t)
    have hstep : selectStep cX cY none s = none := by simp [selectStep, hs]
    rw [List.foldl_cons, hstep]
    exact ih fun u hu => h u (List.mem_cons_of_mem s hu)

lemma foldl_selectStep_mem (cX cY : ℚ) :
    ∀ (segs : List PersonSegmentation) (acc : Option PersonSegmentation)
      (b : PersonSegmentation), segs.foldl (selectStep cX cY) acc = some b →
      acc = some b ∨ (b ∈ segs ∧ countPixels b ≠ 0) := by
  intro segs
  induction segs with
  | nil => intro acc b h; exact Or.inl h
  | cons u t ih =>
    intro acc b h
    rw [List.foldl_cons] at h
    rcases ih (selectStep cX cY acc u) b h with h1 | h2
    · by_cases hc : countPixels u = 0
      · left
        simpa [selectStep, hc] using h1
      · cases acc with
        | none =>
          have hb : u = b := by simpa [selectStep, hc] using h1
          subst hb
          exact Or.inr ⟨List.mem_cons_self u t, hc⟩
        | some best =>
          by_cases hd : distSq cX cY u < distSq cX cY best
          · have hb : u = b := by simpa [selectStep, hc, hd] using h1
            subst hb
            exact Or.inr ⟨List.mem_cons_self u t, hc⟩
          · left
            simpa [selectStep, hc, hd] using h1
    · exact Or.inr ⟨List.mem_cons_of_mem u h2.1, h2.2⟩

lemma foldl_selectStep_mono (cX cY : ℚ) :
    ∀ (segs : List PersonSegmentation) (a b : PersonSegmentation),
      segs.foldl (selectStep cX cY) (some a) = some b →
      distSq cX cY b ≤ distSq cX cY a := by
  intro segs
  induction segs with
  | nil =>
    intro a b h
    cases Option.some.inj h
    exact le_refl _
  | cons u t ih =>
    intro a b h
    rw [List.foldl_cons] at h
    by_cases hc : countPixels u = 0
    · rw [show selectStep cX cY (some a) u = some a by simp [selectStep, hc]] at h
      exact ih a b h
    · by_cases hd : distSq cX cY u < distSq cX cY a
      · rw [show selectStep cX cY (some a) u = some u by
          simp [selectStep, hc, hd]] at h
        exact le_trans (ih u b h) (le_of_lt hd)
      · rw [show selectStep cX cY (some a) u = some a by
          simp [selectStep, hc, hd]] at h
        exact ih a b h

lemma foldl_selectStep_min (cX cY : ℚ) :
    ∀ (segs : List PersonSegmentation) (acc : Option PersonSegmentation)
      (b : PersonSegmentation), segs.foldl (selectStep cX cY) acc = some b →
      ∀ s ∈ segs, countPixels s ≠ 0 → distSq cX cY b ≤ distSq cX cY s := by
  intro segs
  induction segs with
  | nil =>
    intro acc b _ s hs
    exact absurd hs (List.not_mem_nil s)
  | cons u t ih =>
    intro acc b h s hs hcount
    rw [List.foldl_cons] at h
    rcases List.mem_cons.mp hs with rfl | hmem
    · cases acc with
      | none =>
        rw [show selectStep cX cY none s = some s by simp [selectStep, hcount]] at h
        exact foldl_selectStep_mono cX cY t s b h
      | some best =>
        by_cases hd : distSq cX cY s < distSq cX cY best
        · rw [show selectStep cX cY (some best) s = some s by
            simp [selectStep, hcount, hd]] at h
          exact foldl_selectStep_mono cX cY t s b h
        · rw [show selectStep cX cY (some best) s = some best by
            simp [selectStep, hcount, hd]] at h
          exact le_trans (foldl_selectStep_mono cX cY t best b h) (not_lt.mp hd)
    · exact ih (selectStep cX cY acc u) b h s hmem hcount

lemma foldl_selectStep_split (cX cY : ℚ) :
    ∀ (segs : List PersonSegmentation) (acc : Option PersonSegmentation)
      (b : PersonSegmentation), segs.foldl (selectStep cX cY) acc = some b →
      acc = some b ∨
      ∃ l1 l2, segs = l1 ++ b :: l2 ∧
        (∀ s ∈ l1, countPixels s ≠ 0 → distSq cX cY b < distSq cX cY s) ∧
        (∀ a, acc = some a → distSq cX cY b < distSq cX cY a) := by
  intro segs
  induction segs with
  | nil => intro acc b h; exact Or.inl h
  | cons u t ih =>
    intro acc b h
    rw [List.foldl_cons] at h
    rcases ih (selectStep cX cY acc u) b h with h1 | ⟨l1, l2, heq, hpre, hacc⟩
    · by_cases hc : countPixels u = 0
      · left
        simpa [selectStep, hc] using h1
      · cases acc with
        | none =>
          have hb : u = b := by simpa [selectStep, hc] using h1
          subst hb
          refine Or.inr ⟨[], t, rfl, ?_, ?_⟩
          · intro s hs
            exact absurd hs (List.not_mem_nil s)
          · intro a ha
            exact absurd ha (by simp)
        | some best =>
          by_cases hd : distSq cX cY u < distSq cX cY best
          · have hb : u = b := by simpa [selectStep, hc, hd] using h1
            subst hb
            refine Or.inr ⟨[], t, rfl, ?_, ?_⟩
            · intro s hs
              exact absurd hs (List.not_mem_nil s)
            · intro a ha
              cases Option.some.inj ha
              exact hd
          · left
            simpa [selectStep, hc, hd] using h1
    · refine Or.inr ⟨u :: l1, l2, by rw [heq]; rfl, ?_, ?_⟩
      · intro s hs hcount
        rcases List.mem_cons.mp hs with rfl | hsl1
        · cases acc with
          | none =>
            exact hacc s (by simp [selectStep, hcount])
          | some best =>
            by_cases hd : distSq cX cY s < distSq cX cY best
            · exact hacc s (by simp [selectStep, hcount, hd])
            · exact lt_of_lt_of_le
                (hacc best (by simp [selectStep, hcount, hd])) (not_lt.mp hd)
        · exact hpre s hsl1 hcount
      · intro a ha
        subst ha
        by_cases hc : countPixels u = 0
        · exact hacc a (by simp [selectStep, hc])
        · by_cases hd : distSq cX cY u < distSq cX cY a
          · exact lt_trans (hacc u (by simp [selectStep, hc, hd])) hd
          · exact hacc a (by simp [selectStep, hc, hd])

lemma getD_set_self (l : List Nat) (i v d : Nat) (h : i < l.length) :
    (l.set i v).getD i d = v := by
  rw [List.getD_eq_getElem?_getD, List.getElem?_set_eq_of_lt v h]
  rfl

lemma getD_set_other (l : List Nat) (i j v d : Nat) (h : i ≠ j) :
    (l.set i v).getD j d = l.getD j d := by
  rw [List.getD_eq_getElem?_getD, List.getElem?_set_ne h,
    ← List.getD_eq_getElem?_getD]

lemma length_foldl_preserve {α : Type} (f : List Nat → α → List Nat)
    (hf : ∀ m x, (f m x).length = m.length) :
    ∀ (l : List α) (m : List Nat), (l.foldl f m).length = m.length := by
  intro l
  induction l with
  | nil => intro m; rfl
  | cons x t ih => intro m; rw [List.foldl_cons, ih, hf]

lemma length_writePixel (bd fd : List Nat) (i : Nat) :
    (writePixel bd fd i).length = fd.length := by
  simp [writePixel]

lemma length_mergeStep (mask bd fd : List Nat) (i : Nat) :
    (mergeStep mask bd fd i).length = fd.length := by
  unfold mergeStep
  split
  · exact length_writePixel bd fd i
  · rfl

lemma length_mergeAux (mask bd : List Nat) (l : List Nat) (fd : List Nat) :
    (l.foldl (mergeStep mask bd) fd).length = fd.length :=
  length_foldl_preserve (mergeStep mask bd) (length_mergeStep mask bd) l fd

lemma getD_writePixel_ne (bd fd : List Nat) (i j : Nat) (h : j / 4 ≠ i) :
    (writePixel bd fd i).getD j 0 = fd.getD j 0 := by
  have h0 : i * 4 ≠ j := by omega
  have h1 : i * 4 + 1 ≠ j := by omega
  have h2 : i * 4 + 2 ≠ j := by omega
  have h3 : i * 4 + 3 ≠ j := by omega
  unfold writePixel
  rw [getD_set_other _ _ _ _ _ h3, getD_set_other _ _ _ _ _ h2,
    getD_set_other _ _ _ _ _ h1, getD_set_other _ _ _ _ _ h0]

lemma getD_writePixel_hit (bd fd : List Nat) (i k : Nat) (hk : k < 4)
    (h : i * 4 + k < fd.length) :
    (writePixel bd fd i).getD (i * 4 + k) 0 = bd.getD (i * 4 + k) 0 := by
  interval_cases k
  · have e1 : i * 4 + 1 ≠ i * 4 + 0 := by omega
    have e2 : i * 4 + 2 ≠ i * 4 + 0 := by omega
    have e3 : i * 4 + 3 ≠ i * 4 + 0 := by omega
    unfold writePixel
    rw [getD_set_other _ _ _ _ _ e3, getD_set_other _ _ _ _ _ e2,
      getD_set_other _ _ _ _ _ e1]
    have : i * 4 + 0 = i * 4 := by omega
    rw [this] at h ⊢
    exact getD_set_self _ _ _ _ (by simpa using h)
  · have e2 : i * 4 + 2 ≠ i * 4 + 1 := by omega
    have e3 : i * 4 + 3 ≠ i * 4 + 1 := by omega
    unfold writePixel
    rw [getD_set_other _ _ _ _ _ e3, getD_set_other _ _ _ _ _ e2]
    exact getD_set_self _ _ _ _ (by simpa using h)
  · have e3 : i * 4 + 3 ≠ i * 4 + 2 := by omega
    unfold writePixel
    rw [getD_set_other _ _ _ _ _ e3]
    exact getD_set_self _ _ _ _ (by simpa using h)
  · unfold writePixel
    exact getD_set_self _ _ _ _ (by simpa using h)

lemma mergeAux_untouched (mask bd : List Nat) :
    ∀ (n : Nat) (fd : List Nat) (j : Nat), 4 * n ≤ j →
      ((List.range n).foldl (mergeStep mask bd) fd).getD j 0 = fd.getD j 0 := by
  intro n
  induction n with
  | zero => intro fd j _; rfl
  | succ n ih =>
    intro fd j hj
    rw [List.range_succ, List.foldl_append, List.foldl_cons, List.foldl_nil]
    have hstep : (mergeStep mask bd
        ((List.range n).foldl (mergeStep mask bd) fd) n).getD j 0 =
        ((List.range n).foldl (mergeStep mask bd) fd).getD j 0 := by
      unfold mergeStep
      split
      · exact getD_writePixel_ne _ _ _ _ (by omega)
      · rfl
    rw [hstep]
    exact ih fd j (by omega)

lemma mergeAux_getD (mask bd : List Nat) :
    ∀ (n : Nat) (fd : List Nat) (i k : Nat), i < n → k < 4 →
      i * 4 + k < fd.length →
      ((List.range n).foldl (mergeStep mask bd) fd).getD (i * 4 + k) 0 =
        if mask.getD i 0 = 1 then bd.getD (i * 4 + k) 0
        else fd.getD (i * 4 + k) 0 := by
  intro n
  induction n with
  | zero => intro fd i k hi _ _; exact absurd hi (Nat.not_lt_zero i)
  | succ n ih =>
    intro fd i k hi hk hlen
    rw [List.range_succ, List.foldl_append, List.foldl_cons, List.foldl_nil]
    by_cases hin : i < n
    · have hdiv : (i * 4 + k) / 4 ≠ n := by omega
      have hstep : (mergeStep mask bd
          ((List.range n).foldl (mergeStep mask bd) fd) n).getD (i * 4 + k) 0 =
          ((List.range n).foldl (mergeStep mask bd) fd).getD (i * 4 + k) 0 := by
        unfold mergeStep
        split
        · exact getD_writePixel_ne _ _ _ _ hdiv
        · rfl
      rw [hstep]
      exact ih fd i k hin hk hlen
    · have hieq : i = n := by omega
      subst hieq
      have hunt : ((List.range i).foldl (mergeStep mask bd) fd).getD
          (i * 4 + k) 0 = fd.getD (i * 4 + k) 0 :=
        mergeAux_untouched mask bd i fd (i * 4 + k) (by omega)
      have hglen : ((List.range i).foldl (mergeStep mask bd) fd).length =
          fd.length := length_mergeAux mask bd (List.range i) fd
      have hdef : mergeStep mask bd
          ((List.range i).foldl (mergeStep mask bd) fd) i =
          if mask.getD i 0 = 1 then
            writePixel bd ((List.range i).foldl (mergeStep mask bd) fd) i
          else (List.range i).foldl (mergeStep mask bd) fd := rfl
      by_cases hm : mask.getD i 0 = 1
      · rw [if_pos hm, hdef, if_pos hm]
        rw [getD_writePixel_hit bd _ i k hk (by omega)]
      · rw [if_neg hm, hdef, if_neg hm]
        exact hunt

/-- Claim C1: in the BodyPix variant, for every non-empty result of
`segmentMultiPerson`, the segmentation selected for sharp rendering is one of
the results, has at least one person pixel (zero-pixel segmentations are
skipped), and its pixel-mask centroid has minimal Euclidean distance to the
center among all segmentations with at least one person pixel. -/
theorem bodyPix_selects_center_most (cX cY : ℚ)
    (segs : List PersonSegmentation) (_hne : segs ≠ [])
    (seg : PersonSegmentation)
    (hsel : selectClosest cX cY segs = some seg) :
    seg ∈ segs ∧ countPixels seg ≠ 0 ∧
      ∀ s ∈ segs, countPixels s ≠ 0 →
        Real.sqrt (distSq cX cY seg : ℝ) ≤ Real.sqrt (distSq cX cY s : ℝ) := by
  rcases foldl_selectStep_mem cX cY segs none seg hsel with h | ⟨h1, h2⟩
  · exact absurd h (by simp)
  · refine ⟨h1, h2, ?_⟩
    intro s hs hc
    have hq := foldl_selectStep_min cX cY segs none seg hsel s hs hc
    exact Real.sqrt_le_sqrt (by exact_mod_cast hq)

/-- Witness for claim C1 at a concrete one-element input. -/
theorem bodyPix_selects_center_most_witness :
    (⟨[1], 1, 1⟩ : PersonSegmentation) ∈
        [(⟨[1], 1, 1⟩ : PersonSegmentation)] ∧
      countPixels ⟨[1], 1, 1⟩ ≠ 0 ∧
      ∀ s ∈ [(⟨[1], 1, 1⟩ : PersonSegmentation)], countPixels s ≠ 0 →
        Real.sqrt (distSq 1 1 ⟨[1], 1, 1⟩ : ℝ) ≤
          Real.sqrt (distSq 1 1 s : ℝ) :=
  bodyPix_selects_center_most 1 1 [⟨[1], 1, 1⟩] (by decide) ⟨[1], 1, 1⟩
    (by decide)

/-- Claim C10: the selection loop compares with strict less-than, so the
selected segmentation strictly beats every earlier segmentation with at least
one person pixel; among equally minimal candidates the earliest in the
`segmentMultiPerson` result array wins. -/
theorem bodyPix_tie_breaks_earliest (cX cY : ℚ)
    (segs : List PersonSegmentation) (seg : PersonSegmentation)
    (hsel : selectClosest cX cY segs = some seg) :
    ∃ l1 l2, segs = l1 ++ seg :: l2 ∧
      ∀ s ∈ l1, countPixels s ≠ 0 → distSq cX cY seg < distSq cX cY s := by
  rcases foldl_selectStep_split cX cY segs none seg hsel with
    h | ⟨l1, l2, heq, hpre, _⟩
  · exact absurd h (by simp)
  · exact ⟨l1, l2, heq, hpre⟩

/-- Witness for claim C10 at a two-element tie: both segmentations have
squared distance 1 to the center (1, 1); the first is selected. -/
theorem bodyPix_tie_breaks_earliest_witness :
    ∃ l1 l2,
      [(⟨[0, 0, 1, 0], 2, 2⟩ : PersonSegmentation), ⟨[0, 1, 0, 0], 2, 2⟩] =
        l1 ++ (⟨[0, 0, 1, 0], 2, 2⟩ : PersonSegmentation) :: l2 ∧
      ∀ s ∈ l1, countPixels s ≠ 0 →
        distSq 1 1 ⟨[0, 0, 1, 0], 2, 2⟩ < distSq 1 1 s :=
  bodyPix_tie_breaks_earliest 1 1
    [⟨[0, 0, 1, 0], 2, 2⟩, ⟨[0, 1, 0, 0], 2, 2⟩] ⟨[0, 0, 1, 0], 2, 2⟩
    (by norm_num [selectClosest, selectStep, distSq, countPixels, segStats,
      List.range_succ])

/-- Claim C2: the BodyPix compositor treats the to-blur mask as a per-pixel
selector.  For every pixel index `i` of the mask, when the mask byte is 1 the
four output bytes at `i * 4 .. i * 4 + 3` equal the corresponding bytes of
the blurred bitmap, and when it is 0 they equal the corresponding bytes of
the original bitmap.  The original buffer has the canvas size, four bytes per
mask entry. -/
theorem compositor_mask_selects (mask fd bd : List Nat)
    (hf : fd.length = 4 * mask.length) (i : Nat) (hi : i < mask.length) :
    (mask.getD i 0 = 1 → ∀ k < 4,
      (mergeImages mask fd bd).getD (i * 4 + k) 0 = bd.getD (i * 4 + k) 0) ∧
    (mask.getD i 0 = 0 → ∀ k < 4,
      (mergeImages mask fd bd).getD (i * 4 + k) 0 = fd.getD (i * 4 + k) 0) := by
  constructor
  · intro hm k hk
    have h := mergeAux_getD mask bd mask.length fd i k hi hk (by omega)
    unfold mergeImages
    rw [h, if_pos hm]
  · intro hm k hk
    have hm1 : ¬mask.getD i 0 = 1 := by rw [hm]; exact Nat.zero_ne_one
    have h := mergeAux_getD mask bd mask.length fd i k hi hk (by omega)
    unfold mergeImages
    rw [h, if_neg hm1]

/-- Witness for claim C2 on a two-pixel mask: pixel 0 is marked to blur and
receives the blurred bytes, pixel 0 of a zero mask would keep the original. -/
theorem compositor_mask_selects_witness :
    (([1, 0] : List Nat).getD 0 0 = 1 → ∀ k < 4,
      (mergeImages [1, 0] [0, 0, 0, 0, 1, 1, 1, 1]
        [9, 9, 9, 9, 8, 8, 8, 8]).getD (0 * 4 + k) 0 =
        ([9, 9, 9, 9, 8, 8, 8, 8] : List Nat).getD (0 * 4 + k) 0) ∧
    (([1, 0] : List Nat).getD 0 0 = 0 → ∀ k < 4,
      (mergeImages [1, 0] [0, 0, 0, 0, 1, 1, 1, 1]
        [9, 9, 9, 9, 8, 8, 8, 8]).getD (0 * 4 + k) 0 =
        ([0, 0, 0, 0, 1, 1, 1, 1] : List Nat).getD (0 * 4 + k) 0) :=
  compositor_mask_selects [1, 0] [0, 0, 0, 0, 1, 1, 1, 1]
    [9, 9, 9, 9, 8, 8, 8, 8] (by decide) 0 (by decide)

lemma length_getImageData (w h : Nat) (buf : List Nat) :
    (getImageData w h buf).length = 4 * (w * h) := by
  simp [getImageData]

lemma getD_getImageData (w h : Nat) (buf : List Nat) (j d : Nat)
    (hj : j < 4 * (w * h)) : (getImageData w h buf).getD j d = buf.getD j 0 := by
  unfold getImageData
  rw [List.getD_eq_getElem?_getD, List.getElem?_map, List.getElem?_range hj]
  rfl

lemma getD_initMask (w h i d : Nat) (hi : i < w * h) :
    (initMask w h).getD i d = 1 := by
  unfold initMask
  simp [List.getD_eq_getElem?_getD, List.getElem?_replicate, hi]

lemma length_initMask (w h : Nat) : (initMask w h).length = w * h := by
  simp [initMask]

lemma mergeImages_all_ones (mask fd bd : List Nat)
    (hmask : ∀ i < mask.length, mask.getD i 0 = 1)
    (hf : fd.length = 4 * mask.length) (j : Nat) (hj : j < 4 * mask.length) :
    (mergeImages mask fd bd).getD j 0 = bd.getD j 0 := by
  have hi : j / 4 < mask.length := by omega
  have hk : j % 4 < 4 := by omega
  have hidx : j / 4 * 4 + j % 4 = j := by omega
  have h := mergeAux_getD mask bd mask.length fd (j / 4) (j % 4) hi hk (by omega)
  rw [hidx] at h
  unfold mergeImages
  rw [h, if_pos (hmask (j / 4) hi)]

lemma length_carveStep (seg : PersonSegmentation) (y : Nat) (m : List Nat)
    (x : Nat) : (carveStep seg y m x).length = m.length := by
  unfold carveStep
  split
  · exact List.length_set m _ _
  · rfl

lemma length_carveRowAux (seg : PersonSegmentation) (y : Nat) (l : List Nat)
    (m : List Nat) : (l.foldl (carveStep seg y) m).length = m.length :=
  length_foldl_preserve (carveStep seg y) (length_carveStep seg y) l m

lemma carveRowAux_getD (seg : PersonSegmentation) (y : Nat) :
    ∀ (nx : Nat) (m : List Nat) (i d : Nat),
      ((List.range nx).foldl (carveStep seg y) m).getD i d =
        if (∃ x ∈ List.range nx, seg.data.getD (y * seg.width + x) 0 = 1 ∧
            y * seg.width + x = i) ∧ i < m.length
        then 0 else m.getD i d := by
  intro nx
  induction nx with
  | zero =>
    intro m i d
    rw [if_neg]
    · rfl
    · rintro ⟨⟨x, hx, _⟩, _⟩
      exact absurd hx (List.not_mem_nil x)
  | succ nx ih =>
    intro m i d
    conv_lhs => rw [List.range_succ, List.foldl_append, List.foldl_cons,
      List.foldl_nil]
    have hglen : ((List.range nx).foldl (carveStep seg y) m).length = m.length :=
      length_carveRowAux seg y (List.range nx) m
    by_cases hdata : seg.data.getD (y * seg.width + nx) 0 = 1
    · have hstep : carveStep seg y
          ((List.range nx).foldl (carveStep seg y) m) nx =
          ((List.range nx).foldl (carveStep seg y) m).set
            (y * seg.width + nx) 0 := by
        unfold carveStep
        rw [if_pos hdata]
      by_cases heq : y * seg.width + nx = i
      · by_cases hlen : i < m.length
        · rw [hstep, heq, getD_set_self _ _ _ _ (by omega)]
          rw [if_pos ⟨⟨nx, List.mem_range.mpr (Nat.lt_succ_self nx), hdata, heq⟩,
            hlen⟩]
        · rw [hstep, List.set_eq_of_length_le (by omega), ih m i d,
            if_neg (fun hc => hlen hc.2), if_neg (fun hc => hlen hc.2)]
      · rw [hstep, getD_set_other _ _ _ _ _ heq, ih m i d]
        by_cases hc : (∃ x ∈ List.range nx,
            seg.data.getD (y * seg.width + x) 0 = 1 ∧
            y * seg.width + x = i) ∧ i < m.length
        · rcases hc with ⟨⟨x, hx, hd, he⟩, hl⟩
          have hx' := List.mem_range.mp hx
          rw [if_pos ⟨⟨x, hx, hd, he⟩, hl⟩,
            if_pos ⟨⟨x, List.mem_range.mpr (by omega), hd, he⟩, hl⟩]
        · rw [if_neg hc, if_neg ?_]
          rintro ⟨⟨x, hx, hd, he⟩, hl⟩
          have hx' := List.mem_range.mp hx
          by_cases hxn : x = nx
          · subst hxn
            exact heq he
          · exact hc ⟨⟨x, List.mem_range.mpr (by omega), hd, he⟩, hl⟩
    · have hstep : carveStep seg y
          ((List.range nx).foldl (carveStep seg y) m) nx =
          (List.range nx).foldl (carveStep seg y) m := by
        unfold carveStep
        rw [if_neg hdata]
      rw [hstep, ih m i d]
      by_cases hc : (∃ x ∈ List.range nx,
          seg.data.getD (y * seg.width + x) 0 = 1 ∧
          y * seg.width + x = i) ∧ i < m.length
      · rcases hc with ⟨⟨x, hx, hd, he⟩, hl⟩
        have hx' := List.mem_range.mp hx
        rw [if_pos ⟨⟨x, hx, hd, he⟩, hl⟩,
          if_pos ⟨⟨x, List.mem_range.mpr (by omega), hd, he⟩, hl⟩]
      · rw [if_neg hc, if_neg ?_]
        rintro ⟨⟨x, hx, hd, he⟩, hl⟩
        have hx' := List.mem_range.mp hx
        by_cases hxn : x = nx
        · subst hxn
          exact hdata hd
        · exact hc ⟨⟨x, List.mem_range.mpr (by omega), hd, he⟩, hl⟩

lemma length_carveRow (seg : PersonSegmentation) (m : List Nat) (y : Nat) :
    (carveRow seg m y).length = m.length :=
  length_carveRowAux seg y (List.range seg.width) m

lemma applySegAux_getD (seg : PersonSegmentation) :
    ∀ (ny : Nat) (m : List Nat) (i d : Nat),
      ((List.range ny).foldl (carveRow seg) m).getD i d =
        if (∃ y ∈ List.range ny, ∃ x ∈ List.range seg.width,
            seg.data.getD (y * seg.width + x) 0 = 1 ∧ y * seg.width + x = i) ∧
            i < m.length
        then 0 else m.getD i d := by
  intro ny
  induction ny with
  | zero =>
    intro m i d
    rw [if_neg]
    · rfl
    · rintro ⟨⟨y, hy, _⟩, _⟩
      exact absurd hy (List.not_mem_nil y)
  | succ ny ih =>
    intro m i d
    conv_lhs => rw [List.range_succ, List.foldl_append, List.foldl_cons,
      List.foldl_nil]
    have hglen : ((List.range ny).foldl (carveRow seg) m).length = m.length :=
      length_foldl_preserve (carveRow seg) (length_carveRow seg)
        (List.range ny) m
    have hrow := carveRowAux_getD seg ny seg.width
      ((List.range ny).foldl (carveRow seg) m) i d
    rw [show carveRow seg ((List.range ny).foldl (carveRow seg) m) ny =
      (List.range seg.width).foldl (carveStep seg ny)
        ((List.range ny).foldl (carveRow seg) m) from rfl, hrow]
    by_cases hB : ∃ x ∈ List.range seg.width,
        seg.data.getD (ny * seg.width + x) 0 = 1 ∧ ny * seg.width + x = i
    · by_cases hlen : i < m.length
      · rw [if_pos ⟨hB, by omega⟩,
          if_pos ⟨⟨ny, List.mem_range.mpr (Nat.lt_succ_self ny), hB⟩, hlen⟩]
      · rw [if_neg (fun hc => hlen (hglen ▸ hc.2)), ih m i d,
          if_neg (fun hc => hlen hc.2), if_neg (fun hc => hlen hc.2)]
    · rw [if_neg (fun hc => hB hc.1), ih m i d]
      by_cases hA : (∃ y ∈ List.range ny, ∃ x ∈ List.range seg.width,
          seg.data.getD (y * seg.width + x) 0 = 1 ∧ y * seg.width + x = i) ∧
          i < m.length
      · rcases hA with ⟨⟨yy, hyy, hx⟩, hl⟩
        have hyy' := List.mem_range.mp hyy
        rw [if_pos ⟨⟨yy, hyy, hx⟩, hl⟩,
          if_pos ⟨⟨yy, List.mem_range.mpr (by omega), hx⟩, hl⟩]
      · rw [if_neg hA, if_neg ?_]
        rintro ⟨⟨yy, hyy, x, hxm, hd, he⟩, hl⟩
        have hyy' := List.mem_range.mp hyy
        by_cases hyn : yy = ny
        · subst hyn
          exact hB ⟨x, hxm, hd, he⟩
        · exact hA ⟨⟨yy, List.mem_range.mpr (by omega), x, hxm, hd, he⟩, hl⟩

lemma applySeg_getD (m : List Nat) (seg : PersonSegmentation) (i d : Nat) :
    (applySeg m seg).getD i d =
      if (∃ y ∈ List.range seg.height, ∃ x ∈ List.range seg.width,
          seg.data.getD (y * seg.width + x) 0 = 1 ∧ y * seg.width + x = i) ∧
          i < m.length
      then 0 else m.getD i d :=
  applySegAux_getD seg seg.height m i d

lemma segIndex_iff (seg : PersonSegmentation) (i : Nat) :
    (∃ y ∈ List.range seg.height, ∃ x ∈ List.range seg.width,
      seg.data.getD (y * seg.width + x) 0 = 1 ∧ y * seg.width + x = i) ↔
      i < seg.height * seg.width ∧ seg.data.getD i 0 = 1 := by
  constructor
  · rintro ⟨y, hy, x, hx, hd, he⟩
    have hy' := List.mem_range.mp hy
    have hx' := List.mem_range.mp hx
    subst he
    refine ⟨?_, hd⟩
    calc y * seg.width + x < y * seg.width + seg.width := by omega
      _ = (y + 1) * seg.width := by ring
      _ ≤ seg.height * seg.width := Nat.mul_le_mul_right _ (by omega)
  · rintro ⟨hi, hd⟩
    have hw : 0 < seg.width := by
      rcases Nat.eq_zero_or_pos seg.width with h0 | h
      · rw [h0, Nat.mul_zero] at hi
        exact absurd hi (Nat.not_lt_zero i)
      · exact h
    have hdecomp : i / seg.width * seg.width + i % seg.width = i := by
      rw [mul_comm]
      exact Nat.div_add_mod i seg.width
    refine ⟨i / seg.width, List.mem_range.mpr ?_,
      i % seg.width, List.mem_range.mpr (Nat.mod_lt i hw), ?_, hdecomp⟩
    · exact (Nat.div_lt_iff_lt_mul hw).mpr hi
    · rw [hdecomp]
      exact hd

lemma mem_segWrites (seg : PersonSegmentation) (x y : Nat) :
    (x, y) ∈ segWrites seg ↔
      x < seg.width ∧ y < seg.height ∧
        seg.data.getD (y * seg.width + x) 0 = 1 := by
  unfold segWrites
  simp only [List.mem_filter, List.mem_flatMap, List.mem_map, List.mem_range,
    Prod.mk.injEq, decide_eq_true_eq]
  constructor
  · rintro ⟨⟨yy, hyy, xx, hxx, hx, hy⟩, hd⟩
    subst hx
    subst hy
    exact ⟨hxx, hyy, hd⟩
  · rintro ⟨hx, hy, hd⟩
    exact ⟨⟨y, hy, x, hx, rfl, rfl⟩, hd⟩

lemma canvasCoord_ne (w sw x y : Nat) (hw : sw ≠ w) (hy : 1 ≤ y) :
    canvasCoord w (y * sw + x) ≠ (x, y) := by
  unfold canvasCoord
  intro hEq
  rw [Prod.mk.injEq] at hEq
  obtain ⟨h1, h2⟩ := hEq
  rcases Nat.eq_zero_or_pos w with h0 | hpos
  · rw [h0, Nat.div_zero] at h2
    omega
  · have hdm := Nat.div_add_mod (y * sw + x) w
    rw [h1, h2] at hdm
    have hmul : y * w = y * sw := by
      rw [Nat.mul_comm y w]
      omega
    have hws : w = sw := Nat.eq_of_mul_eq_mul_left (by omega) hmul
    exact hw hws.symm

/-- Counterexample for claim C3 as stated: a segmentation whose dimensions
(2 × 1) differ from the canvas dimensions (2 × 2) but whose width matches the
canvas width.  Its carve-out writes are non-empty and every written index
addresses exactly the canvas pixel the segmentation meant, so "dimensions
differ" alone does not yield misalignment; only a width mismatch does. -/
theorem mask_misalignment_claim_counterexample :
    ((⟨[1, 1], 2, 1⟩ : PersonSegmentation).width,
        (⟨[1, 1], 2, 1⟩ : PersonSegmentation).height) ≠ ((2 : Nat), (2 : Nat)) ∧
      segWrites ⟨[1, 1], 2, 1⟩ = [(0, 0), (1, 0)] ∧
      ∀ p ∈ segWrites ⟨[1, 1], 2, 1⟩,
        canvasCoord 2
          (p.2 * (⟨[1, 1], 2, 1⟩ : PersonSegmentation).width + p.1) = p := by
  decide

/-- Claim C3 (amended): the carve-out loop writes zeros into the
full-resolution to-blur mask at indices computed from the segmentation's own
width and height with no rescaling — inside the mask, index `i` is zero
exactly when `i` lies inside the segmentation's own layout and the
segmentation data is 1 at that very index — and for every segmentation whose
WIDTH differs from the canvas width, every written coordinate beyond row zero
addresses a canvas pixel different from the one the segmentation meant.
(When only the height differs the row-major indices still agree, which is
what the counterexample exhibits.) -/
theorem bodyPix_mask_unscaled_and_misaligned (seg : PersonSegmentation)
    (w h : Nat) (hw : seg.width ≠ w) :
    (∀ i, i < w * h →
      ((toBlurMask w h (some seg)).getD i 0 = 0 ↔
        i < seg.height * seg.width ∧ seg.data.getD i 0 = 1)) ∧
    (∀ p ∈ segWrites seg, p.2 * seg.width + p.1 < w * h →
      (toBlurMask w h (some seg)).getD (p.2 * seg.width + p.1) 0 = 0) ∧
    (∀ p ∈ segWrites seg, 1 ≤ p.2 →
      canvasCoord w (p.2 * seg.width + p.1) ≠ p) := by
  refine ⟨?_, ?_, ?_⟩
  · intro i hi
    have hlen : i < (initMask w h).length := by
      rw [length_initMask]
      exact hi
    constructor
    · intro h0
      by_cases hc : (∃ y ∈ List.range seg.height, ∃ x ∈ List.range seg.width,
          seg.data.getD (y * seg.width + x) 0 = 1 ∧ y * seg.width + x = i) ∧
          i < (initMask w h).length
      · exact (segIndex_iff seg i).mp hc.1
      · rw [show toBlurMask w h (some seg) = applySeg (initMask w h) seg
            from rfl, applySeg_getD, if_neg hc, getD_initMask w h i 0 hi] at h0
        exact absurd h0 Nat.one_ne_zero
    · intro hrhs
      rw [show toBlurMask w h (some seg) = applySeg (initMask w h) seg
          from rfl, applySeg_getD, if_pos ⟨(segIndex_iff seg i).mpr hrhs, hlen⟩]
  · rintro ⟨x, y⟩ hp hlt
    have hm := (mem_segWrites seg x y).mp hp
    have hidx : y * seg.width + x < seg.height * seg.width :=
      calc y * seg.width + x < y * seg.width + seg.width := by omega
        _ = (y + 1) * seg.width := by ring
        _ ≤ seg.height * seg.width := Nat.mul_le_mul_right _ (by omega)
    have hlen : y * seg.width + x < (initMask w h).length := by
      rw [length_initMask]
      exact hlt
    rw [show toBlurMask w h (some seg) = applySeg (initMask w h) seg
        from rfl, applySeg_getD,
      if_pos ⟨(segIndex_iff seg (y * seg.width + x)).mpr ⟨hidx, hm.2.2⟩, hlen⟩]
  · rintro ⟨x, y⟩ hp hy
    exact canvasCoord_ne w seg.width x y hw hy

/-- Witness for amended claim C3 with a 2 × 2 segmentation on a 3 × 3 canvas. -/
theorem bodyPix_mask_unscaled_and_misaligned_witness :
    (∀ i, i < 3 * 3 →
      ((toBlurMask 3 3 (some ⟨[1, 0, 1, 1], 2, 2⟩)).getD i 0 = 0 ↔
        i < 2 * 2 ∧ ([1, 0, 1, 1] : List Nat).getD i 0 = 1)) ∧
    (∀ p ∈ segWrites ⟨[1, 0, 1, 1], 2, 2⟩, p.2 * 2 + p.1 < 3 * 3 →
      (toBlurMask 3 3 (some ⟨[1, 0, 1, 1], 2, 2⟩)).getD (p.2 * 2 + p.1) 0 = 0) ∧
    (∀ p ∈ segWrites ⟨[1, 0, 1, 1], 2, 2⟩, 1 ≤ p.2 →
      canvasCoord 3 (p.2 * 2 + p.1) ≠ p) :=
  bodyPix_mask_unscaled_and_misaligned ⟨[1, 0, 1, 1], 2, 2⟩ 3 3 (by decide)

/-- Claim C4: in the BodyPix variant, when `segmentMultiPerson` returns an
empty array, the canvas (already sized to the image) receives the original
image via `drawImage` and the function returns: no blurred copy is made and
no compositing is performed. -/
theorem bodyPix_no_detection_draws_original (img : ImageElem)
    (blur10 : List Nat → List Nat) :
    bodyPixRun img [] blur10 =
      { width := img.width, height := img.height,
        content := CanvasContent.drawnImage } := rfl

lemma length_toBlurMask_none (w h : Nat) :
    (toBlurMask w h none).length = w * h :=
  length_initMask w h

/-- Claim C5: in the BodyPix variant, when `segmentMultiPerson` returns a
non-empty array but every returned segmentation has zero person pixels, no
segmentation is selected, the to-blur mask stays all ones, and the composite
branch runs with every output byte equal to the blurred bitmap — the whole
image is blurred instead of being drawn unmodified. -/
theorem bodyPix_all_zero_segs_blur_everything (img : ImageElem)
    (segs : List PersonSegmentation) (blur10 : List Nat → List Nat)
    (hne : segs ≠ []) (hall : ∀ s ∈ segs, countPixels s = 0) :
    selectClosest ((img.width : ℚ) / 2) ((img.height : ℚ) / 2) segs = none ∧
    (∀ i < img.width * img.height,
      (toBlurMask img.width img.height
        (selectClosest ((img.width : ℚ) / 2) ((img.height : ℚ) / 2)
          segs)).getD i 0 = 1) ∧
    (bodyPixRun img segs blur10).content =
      CanvasContent.composited (bodyPixComposite img segs blur10) ∧
    ∀ j < 4 * (img.width * img.height),
      (bodyPixComposite img segs blur10).getD j 0 =
        (blur10 img.data).getD j 0 := by
  have hsel : selectClosest ((img.width : ℚ) / 2) ((img.height : ℚ) / 2)
      segs = none :=
    foldl_selectStep_none ((img.width : ℚ) / 2) ((img.height : ℚ) / 2)
      segs hall
  have hlen0 : segs.length ≠ 0 := fun h => hne (List.length_eq_zero.mp h)
  refine ⟨hsel, ?_, ?_, ?_⟩
  · intro i hi
    rw [hsel]
    exact getD_initMask img.width img.height i 0 hi
  · unfold bodyPixRun
    rw [if_neg hlen0]
  · intro j hj
    unfold bodyPixComposite
    rw [hsel]
    have hmlen : (toBlurMask img.width img.height none).length =
        img.width * img.height := length_toBlurMask_none _ _
    have hml : ∀ i < (toBlurMask img.width img.height none).length,
        (toBlurMask img.width img.height none).getD i 0 = 1 := by
      intro i hi
      exact getD_initMask img.width img.height i 0 (hmlen ▸ hi)
    have hmerge := mergeImages_all_ones
      (toBlurMask img.width img.height none)
      (getImageData img.width img.height img.data)
      (getImageData img.width img.height (makeBlurredCanvas img blur10).data)
      hml (by rw [length_getImageData, hmlen]) j (by rw [hmlen]; exact hj)
    rw [hmerge, getD_getImageData _ _ _ _ _ hj]
    rfl

/-- Witness for claim C5 on a 1 × 1 image with one zero-pixel segmentation. -/
theorem bodyPix_all_zero_segs_blur_everything_witness :
    selectClosest
        (((⟨1, 1, [1, 2, 3, 4]⟩ : ImageElem).width : ℚ) / 2)
        (((⟨1, 1, [1, 2, 3, 4]⟩ : ImageElem).height : ℚ) / 2)
        [⟨[0], 1, 1⟩] = none ∧
    (∀ i < (⟨1, 1, [1, 2, 3, 4]⟩ : ImageElem).width *
        (⟨1, 1, [1, 2, 3, 4]⟩ : ImageElem).height,
      (toBlurMask (⟨1, 1, [1, 2, 3, 4]⟩ : ImageElem).width
        (⟨1, 1, [1, 2, 3, 4]⟩ : ImageElem).height
        (selectClosest
          (((⟨1, 1, [1, 2, 3, 4]⟩ : ImageElem).width : ℚ) / 2)
          (((⟨1, 1, [1, 2, 3, 4]⟩ : ImageElem).height : ℚ) / 2)
          [⟨[0], 1, 1⟩])).getD i 0 = 1) ∧
    (bodyPixRun ⟨1, 1, [1, 2, 3, 4]⟩ [⟨[0], 1, 1⟩]
        (fun _ => [9, 8, 7, 6])).content =
      CanvasContent.composited
        (bodyPixComposite ⟨1, 1, [1, 2, 3, 4]⟩ [⟨[0], 1, 1⟩]
          (fun _ => [9, 8, 7, 6])) ∧
    ∀ j < 4 * ((⟨1, 1, [1, 2, 3, 4]⟩ : ImageElem).width *
        (⟨1, 1, [1, 2, 3, 4]⟩ : ImageElem).height),
      (bodyPixComposite ⟨1, 1, [1, 2, 3, 4]⟩ [⟨[0], 1, 1⟩]
        (fun _ => [9, 8, 7, 6])).getD j 0 =
        (((fun _ => [9, 8, 7, 6]) : List Nat → List Nat)
          [1, 2, 3, 4]).getD j 0 :=
  bodyPix_all_zero_segs_blur_everything ⟨1, 1, [1, 2, 3, 4]⟩ [⟨[0], 1, 1⟩]
    (fun _ => [9, 8, 7, 6]) (by decide) (by decide)

/-- Claim C6: every failure point of either component — model load failure,
image load failure, or an exception while processing or compositing — sets the
error state, and the component then renders the plain-text error message; this
is the first of the two outcomes the spec allows, and the only one the code
ever produces (no retries and no partial recovery exist: the failure handlers
only call the error setter). -/
theorem failures_render_plain_text_error (e : FailureEvent) (b : Bool) :
    viewAfterFailure e b = View.errorText (failureMessage e) := by
  cases e <;> rfl

/-- Counterexample for claim C7 as stated: after a BodyPix model-load failure
the component renders the plain-text error message, not the CSS-blurred
background-image fallback state the spec describes (no such state exists in
the code). -/
theorem model_load_failure_not_css_fallback :
    viewAfterFailure FailureEvent.bpModelLoad false =
        View.errorText "Failed to load the model" ∧
      viewAfterFailure FailureEvent.bpModelLoad false ≠
        View.cssBlurFallback := by
  decide

/-- Claim C7 (amended): when model loading fails, each variant surfaces the
failure as a plain-text error message (its `setError` string), never as a
CSS-blurred fallback view. -/
theorem model_load_failure_renders_error_text (b : Bool) :
    viewAfterFailure FailureEvent.bpModelLoad b =
        View.errorText "Failed to load the model" ∧
      viewAfterFailure FailureEvent.mpModelLoad b =
        View.errorText "Failed to load MediaPipe SelfieSegmentation model" ∧
      viewAfterFailure FailureEvent.mpScriptMissing b =
        View.errorText
          "MediaPipe SelfieSegmentation script not found on window." ∧
      viewAfterFailure FailureEvent.bpModelLoad b ≠ View.cssBlurFallback :=
  ⟨rfl, rfl, rfl, fun h => View.noConfusion h⟩

/-- Claim C8: in both variants the output canvas width and height are set to
the input image element's width and height before any compositing: the
BodyPix effect sizes the canvas before `processImage` runs, and the first
canvas operation of the MediaPipe `processImage` is the size assignment. -/
theorem canvas_sized_to_image (img : ImageElem)
    (segs : List PersonSegmentation) (blur10 : List Nat → List Nat) :
    (bodyPixRun img segs blur10).width = img.width ∧
    (bodyPixRun img segs blur10).height = img.height ∧
    (mediapipeProcessOps img).head? =
      some (MpOp.setCanvasSize img.width img.height) := by
  unfold bodyPixRun
  by_cases h : segs.length = 0
  · rw [if_pos h]
    exact ⟨rfl, rfl, rfl⟩
  · rw [if_neg h]
    exact ⟨rfl, rfl, rfl⟩

/-- Claim C9: the blurred bitmap of the BodyPix variant lives on an offscreen
canvas whose width and height equal the source image's, whose filter is
"blur(10px)", and whose content is the blur of the whole source image. -/
theorem blurred_canvas_matches_image (img : ImageElem)
    (blur10 : List Nat → List Nat) :
    (makeBlurredCanvas img blur10).width = img.width ∧
    (makeBlurredCanvas img blur10).height = img.height ∧
    (makeBlurredCanvas img blur10).filter = "blur(10px)" ∧
    (makeBlurredCanvas img blur10).data = blur10 img.data :=
  ⟨rfl, rfl, rfl, rfl⟩
